import Mathlib

/-!
Verification model of the Obsidian Google Drive Sync plugin's reconciliation
engine, shallowly embedded from the TypeScript source (`performSync`,
`handleConflict`, `filesHaveIdenticalContent`, `ensureFolderPathExists`,
`findDriveFolder`, `createDriveFolder`, `getMimeType`, `isBinaryFile`,
`DEFAULT_SETTINGS`).  Stateful, effectful code is modelled with explicit
state passing; fallible remote calls are modelled with `Except`/`Option`
and per-call success flags.
-/

namespace GDriveSync

/-- One file of the local vault snapshot (`TFile`: `path`, `stat.size`,
`stat.mtime`). -/
structure LocalFile where
  path : String
  size : Nat
  mtime : Nat
deriving Repr, DecidableEq

/-- One non-folder object of the remote (Drive) snapshot, as produced by
`getDriveFilesRecursive`: object id, reconstructed relative path, name,
size, and `modifiedTime` converted to epoch milliseconds. -/
structure DriveFile where
  id : String
  path : String
  name : String
  size : Nat
  mtime : Nat
deriving Repr, DecidableEq

/-- The `conflictResolution` setting. -/
inductive ConflictPolicy where
  | overwrite
  | keepLocal
  | keepRemote
  | ask
deriving Repr, DecidableEq

/-- The persisted plugin settings (`GoogleDriveSyncSettings`). -/
structure GoogleDriveSyncSettings where
  clientId : String
  clientSecret : String
  folderId : String
  refreshToken : String
  lastSyncTime : Nat
  syncInterval : Nat
  autoSync : Bool
  conflictResolution : ConflictPolicy
deriving Repr, DecidableEq

/-- The `DEFAULT_SETTINGS` of the source: in particular `lastSyncTime = 0`
and `conflictResolution = 'overwrite'`. -/
def DEFAULT_SETTINGS : GoogleDriveSyncSettings :=
  { clientId := ""
    clientSecret := ""
    folderId := ""
    refreshToken := ""
    lastSyncTime := 0
    syncInterval := 15
    autoSync := true
    conflictResolution := .overwrite }

/-- The parameters of one `performSync(toDrive, fromDrive)` run: the two
direction flags, the watermark `settings.lastSyncTime` read at run start,
and the configured conflict policy. -/
structure SyncConfig where
  toDrive : Bool
  fromDrive : Bool
  lastSync : Nat
  policy : ConflictPolicy
deriving Repr, DecidableEq

/-- Outcomes of the remote collaborator calls made during the mutation
phase, plus the content-equality oracle's verdict.  Each flag tells
whether the corresponding HTTP call for a given path succeeds. -/
structure Effects where
  uploadOk : String → Bool
  downloadOk : String → Bool
  deleteOk : String → Bool
  identicalContent : LocalFile → DriveFile → Bool

/-- All remote transfer calls succeed. -/
def Effects.allOk (eff : Effects) : Prop :=
  (∀ p, eff.uploadOk p = true) ∧ (∀ p, eff.downloadOk p = true) ∧
    (∀ p, eff.deleteOk p = true)

/-- A remote operation issued during the mutation phase of a run. -/
inductive SyncOp where
  | uploadNew (path : String)
  | uploadUpdate (path : String) (fileId : String)
  | download (path : String) (fileId : String)
  | deleteRemote (path : String) (fileId : String)
  | askUser (path : String)
deriving Repr, DecidableEq

/-- The path a `SyncOp` concerns. -/
def SyncOp.opPath : SyncOp → String
  | .uploadNew p => p
  | .uploadUpdate p _ => p
  | .download p _ => p
  | .deleteRemote p _ => p
  | .askUser p => p

/-- The run summary counters (`uploaded`, `downloaded`, `deleted`,
`conflicts`). -/
structure Counters where
  uploaded : Nat
  downloaded : Nat
  deleted : Nat
  conflicts : Nat
deriving Repr, DecidableEq

def Counters.zero : Counters := ⟨0, 0, 0, 0⟩

def Counters.add (a b : Counters) : Counters :=
  ⟨a.uploaded + b.uploaded, a.downloaded + b.downloaded,
    a.deleted + b.deleted, a.conflicts + b.conflicts⟩

/-- A fatal error thrown during the mutation phase (re-thrown upload or
download failure, caught by `performSync`'s outer `catch`). -/
inductive SyncError where
  | uploadFailed
  | downloadFailed
deriving Repr, DecidableEq

/-- The observable outcome of (a part of) a run: the remote operations
attempted in order, the counter deltas, and the fatal error if one was
thrown. -/
structure SyncTrace where
  ops : List SyncOp
  cnt : Counters
  err : Option SyncError
deriving Repr, DecidableEq

/-- Lookup in `vaultFileMap` / `driveFileMap`, which are built by iterating `Map.set` with
the path as key, so a later entry overwrites an earlier one; `get`
returns the surviving entry, i.e. the last one in iteration order whose
key matches. -/
def mapLookup (key : α → String) : List α → String → Option α
  | [], _ => none
  | x :: xs, p =>
    match mapLookup key xs p with
    | some d => some d
    | none => if key x == p then some x else none

def lookupDrive (drives : List DriveFile) (p : String) : Option DriveFile :=
  mapLookup DriveFile.path drives p

def lookupLocal (locals : List LocalFile) (p : String) : Option LocalFile :=
  mapLookup LocalFile.path locals p

/-- Model of `handleConflict`: applies `settings.conflictResolution` to a genuine
conflict.  `overwrite` uploads the vault version in place,
`keep-local` does nothing, `keep-remote` downloads the Drive version,
`ask` opens the conflict modal (deferring the choice) and returns. -/
def handleConflict (policy : ConflictPolicy) (eff : Effects)
    (f : LocalFile) (d : DriveFile) : SyncTrace :=
  match policy with
  | .overwrite =>
      if eff.uploadOk f.path then ⟨[.uploadUpdate f.path d.id], Counters.zero, none⟩
      else ⟨[.uploadUpdate f.path d.id], Counters.zero, some .uploadFailed⟩
  | .keepLocal => ⟨[], Counters.zero, none⟩
  | .keepRemote =>
      if eff.downloadOk d.path then ⟨[.download d.path d.id], Counters.zero, none⟩
      else ⟨[.download d.path d.id], Counters.zero, some .downloadFailed⟩
  | .ask => ⟨[.askUser f.path], Counters.zero, none⟩

/-- One iteration of the vault-files loop of `performSync`: everything is
gated on `toDrive`; a path absent from Drive is uploaded as a new file;
a path present on both sides is classified by the two
`mtime > lastSync + 2000` flags into conflict / update-in-place / skip;
`conflicts` is incremented only after `handleConflict` returns. -/
def vaultStep (cfg : SyncConfig) (eff : Effects)
    (driveMap : String → Option DriveFile) (f : LocalFile) : SyncTrace :=
  if cfg.toDrive then
    match driveMap f.path with
    | none =>
        if eff.uploadOk f.path then ⟨[.uploadNew f.path], ⟨1, 0, 0, 0⟩, none⟩
        else ⟨[.uploadNew f.path], Counters.zero, some .uploadFailed⟩
    | some d =>
        if cfg.lastSync + 2000 < f.mtime ∧ cfg.lastSync + 2000 < d.mtime then
          if eff.identicalContent f d then ⟨[], Counters.zero, none⟩
          else
            match handleConflict cfg.policy eff f d with
            | ⟨ops, cnt, some e⟩ => ⟨ops, cnt, some e⟩
            | ⟨ops, cnt, none⟩ => ⟨ops, cnt.add ⟨0, 0, 0, 1⟩, none⟩
        else if cfg.lastSync + 2000 < f.mtime then
          if eff.uploadOk f.path then ⟨[.uploadUpdate f.path d.id], ⟨1, 0, 0, 0⟩, none⟩
          else ⟨[.uploadUpdate f.path d.id], Counters.zero, some .uploadFailed⟩
        else ⟨[], Counters.zero, none⟩
  else ⟨[], Counters.zero, none⟩

/-- One iteration of the Drive-files loop of `performSync` (the loop
itself only runs when `fromDrive` is set).  A remote-only path is
downloaded when recently modified, otherwise deleted from Drive when
`toDrive` is set — and a failing DELETE response is only logged, the
loop continues.  For a path on both sides only the
"drive changed, vault unchanged" case downloads. -/
def driveStep (cfg : SyncConfig) (eff : Effects)
    (vaultMap : String → Option LocalFile) (d : DriveFile) : SyncTrace :=
  match vaultMap d.path with
  | none =>
      if cfg.lastSync + 2000 < d.mtime then
        if cfg.fromDrive then
          if eff.downloadOk d.path then ⟨[.download d.path d.id], ⟨0, 1, 0, 0⟩, none⟩
          else ⟨[.download d.path d.id], Counters.zero, some .downloadFailed⟩
        else ⟨[], Counters.zero, none⟩
      else if cfg.toDrive then
        if eff.deleteOk d.path then ⟨[.deleteRemote d.path d.id], ⟨0, 0, 1, 0⟩, none⟩
        else ⟨[.deleteRemote d.path d.id], Counters.zero, none⟩
      else ⟨[], Counters.zero, none⟩
  | some v =>
      if cfg.lastSync + 2000 < d.mtime ∧ cfg.lastSync + 2000 < v.mtime then
        ⟨[], Counters.zero, none⟩
      else if cfg.lastSync + 2000 < d.mtime then
        if eff.downloadOk d.path then ⟨[.download d.path d.id], ⟨0, 1, 0, 0⟩, none⟩
        else ⟨[.download d.path d.id], Counters.zero, some .downloadFailed⟩
      else ⟨[], Counters.zero, none⟩

/-- Sequential execution of one loop: a thrown error aborts the remainder
of the loop (and of the run); everything already attempted stays in the
trace. -/
def foldSteps (step : α → SyncTrace) : List α → SyncTrace
  | [] => ⟨[], Counters.zero, none⟩
  | x :: xs =>
    let r := step x
    match r.err with
    | some e => ⟨r.ops, r.cnt, some e⟩
    | none =>
      let rest := foldSteps step xs
      ⟨r.ops ++ rest.ops, r.cnt.add rest.cnt, rest.err⟩

/-- The mutation phase of `performSync`: the vault-files loop, then — only
when `fromDrive` — the Drive-files loop.  An error in the first loop
skips the second. -/
def performSync (cfg : SyncConfig) (eff : Effects)
    (locals : List LocalFile) (drives : List DriveFile) : SyncTrace :=
  match foldSteps (vaultStep cfg eff (lookupDrive drives)) locals with
  | ⟨ops1, cnt1, some e⟩ => ⟨ops1, cnt1, some e⟩
  | ⟨ops1, cnt1, none⟩ =>
      if cfg.fromDrive then
        match foldSteps (driveStep cfg eff (lookupLocal locals)) drives with
        | ⟨ops2, cnt2, e2⟩ => ⟨ops1 ++ ops2, cnt1.add cnt2, e2⟩
      else ⟨ops1, cnt1, none⟩

/-- The persisted watermark after the run: `performSync` sets
`settings.lastSyncTime = Date.now()` only after both loops finish
without a thrown error; the outer `catch` leaves it untouched. -/
def lastSyncAfter (cfg : SyncConfig) (eff : Effects)
    (locals : List LocalFile) (drives : List DriveFile) (now : Nat) : Nat :=
  match (performSync cfg eff locals drives).err with
  | none => now
  | some _ => cfg.lastSync

/-- Splitting a character list at every occurrence of a separator, the
character-level model of JavaScript's `split`. -/
def splitOnChar (c : Char) : List Char → List (List Char)
  | [] => [[]]
  | x :: xs =>
    match splitOnChar c xs with
    | [] => [[]]
    | s :: rest => if x = c then [] :: s :: rest else (x :: s) :: rest

/-- ASCII lowercasing of one character (`toLowerCase` on the extensions
the source matches on). -/
def lowerChar (c : Char) : Char :=
  match c with
  | 'A' => 'a' | 'B' => 'b' | 'C' => 'c' | 'D' => 'd' | 'E' => 'e'
  | 'F' => 'f' | 'G' => 'g' | 'H' => 'h' | 'I' => 'i' | 'J' => 'j'
  | 'K' => 'k' | 'L' => 'l' | 'M' => 'm' | 'N' => 'n' | 'O' => 'o'
  | 'P' => 'p' | 'Q' => 'q' | 'R' => 'r' | 'S' => 's' | 'T' => 't'
  | 'U' => 'u' | 'V' => 'v' | 'W' => 'w' | 'X' => 'x' | 'Y' => 'y'
  | 'Z' => 'z' | x => x

def lowerStr (s : String) : String :=
  String.mk (s.data.map lowerChar)

/-- Model of `getMimeType`: maps the lowercased final `.`-separated
component of the filename to a MIME type, defaulting to
`application/octet-stream`. -/
def getMimeType (filename : String) : String :=
  let parts := (splitOnChar '.' filename.data).map (fun l => String.mk l)
  let ext := lowerStr (parts.getLast?.getD "")
  match ext with
  | "md" => "text/markdown"
  | "txt" => "text/plain"
  | "json" => "application/json"
  | "png" => "image/png"
  | "jpg" => "image/jpeg"
  | "jpeg" => "image/jpeg"
  | "gif" => "image/gif"
  | "svg" => "image/svg+xml"
  | "pdf" => "application/pdf"
  | "dat" => "application/octet-stream"
  | _ => "application/octet-stream"

/-- Model of `mimeType.startsWith(type)` on the character lists. -/
def strStarts (pre s : String) : Bool :=
  pre.data.isPrefixOf s.data

/-- Model of `isBinaryFile`: not binary exactly when the MIME type starts with one
of the known text-like types. -/
def isBinaryFile (mimeType : String) : Bool :=
  let textTypes := ["text/", "application/json", "application/javascript",
    "application/xml", "application/x-yaml", "application/x-tex",
    "application/x-latex"]
  !(textTypes.any (fun t => strStarts t mimeType))

/-- Model of `filesHaveIdenticalContent` over the data the real function
consumes: the vault file's name and size, the Drive file's parsed size,
and the two content reads — `vaultRead` is `none` when `vault.read`
throws, `driveDownload` is `none` when the download response is non-OK
or reading it throws (in both cases the `catch`/status check yields
`false`).  `md5` abstracts the `crypto` digest of a string. -/
def filesHaveIdenticalContent (md5 : String → String) (vaultName : String)
    (vaultSize driveSize : Nat) (vaultRead driveDownload : Option String) : Bool :=
  if vaultSize ≠ driveSize then false
  else if vaultSize = 0 then true
  else if isBinaryFile (getMimeType vaultName) then true
  else
    match vaultRead with
    | none => false
    | some vc =>
      match driveDownload with
      | none => false
      | some dc => md5 vc == md5 dc

/-- A folder object of the remote store: id, name, and parent id. -/
structure RemoteFolder where
  id : String
  name : String
  parent : String
deriving Repr, DecidableEq

/-- Whether the two remote calls of the materializer get OK responses:
the child-folder listing of `findDriveFolder` and the folder creation of
`createDriveFolder`. -/
structure MatEnv where
  listOk : Bool
  createOk : Bool
deriving Repr, DecidableEq

/-- The state the materializer reads and writes during one run: the
run-scoped `folderIdCache` (path → folder id, most recent entry first),
the remote folder objects, a counter for fresh remote ids, and the list
of folder-creation calls issued (by cumulative sub-path). -/
structure MatState where
  cache : List (String × String)
  folders : List RemoteFolder
  nextId : Nat
  creates : List String
deriving Repr, DecidableEq

/-- The error thrown by `createDriveFolder` on a non-OK response. -/
inductive MatError where
  | createFailed
deriving Repr, DecidableEq

instance exceptDecEq {ε α : Type} [DecidableEq ε] [DecidableEq α] :
    DecidableEq (Except ε α) := fun a b =>
  match a, b with
  | .error x, .error y =>
    if h : x = y then isTrue (by rw [h])
    else isFalse (fun hc => h (by injection hc))
  | .ok x, .ok y =>
    if h : x = y then isTrue (by rw [h])
    else isFalse (fun hc => h (by injection hc))
  | .error _, .ok _ => isFalse (fun hc => Except.noConfusion hc)
  | .ok _, .error _ => isFalse (fun hc => Except.noConfusion hc)

/-- Model of `folderIdCache.get` after `has`: the most recently set binding wins. -/
def cacheLookup (c : List (String × String)) (p : String) : Option String :=
  (c.find? (fun e => e.1 == p)).map (fun e => e.2)

/-- Model of `findDriveFolder`: searches for an existing child folder with the
given name under the parent.  On a non-OK listing response it logs and
returns `null` — it does not throw. -/
def findDriveFolder (env : MatEnv) (folders : List RemoteFolder)
    (name parentId : String) : Option String :=
  if env.listOk then
    (folders.find? (fun f => f.name == name && f.parent == parentId)).map (fun f => f.id)
  else none

/-- Model of `createDriveFolder`: creates a folder object under the parent and
returns its id; a non-OK response throws. -/
def createDriveFolder (env : MatEnv) (st : MatState) (name parentId : String) :
    Except MatError (String × MatState) :=
  if env.createOk then
    let fid := "folder_" ++ toString st.nextId
    .ok (fid, { st with folders := ⟨fid, name, parentId⟩ :: st.folders,
                        nextId := st.nextId + 1 })
  else .error .createFailed

/-- The update `currentPath = currentPath ? currentPath + '/' + segment : segment`:
the cumulative sub-path after one more segment. -/
def childPath (curPath seg : String) : String :=
  if curPath == "" then seg else curPath ++ "/" ++ seg

/-- The segment walk of `ensureFolderPathExists`: for each segment, form
the cumulative sub-path; reuse its cached id, else look it up on Drive,
else create it — caching every resolved id and recording every creation
call. -/
def ensureSegments (env : MatEnv) :
    List String → String → String → MatState → Except MatError (String × MatState)
  | [], _, parentId, st => .ok (parentId, st)
  | seg :: rest, curPath, parentId, st =>
    match cacheLookup st.cache (childPath curPath seg) with
    | some cid => ensureSegments env rest (childPath curPath seg) cid st
    | none =>
      match findDriveFolder env st.folders seg parentId with
      | some fid =>
          ensureSegments env rest (childPath curPath seg) fid
            { st with cache := (childPath curPath seg, fid) :: st.cache }
      | none =>
        match createDriveFolder env st seg parentId with
        | .error e => .error e
        | .ok (fid, st1) =>
            ensureSegments env rest (childPath curPath seg) fid
              { st1 with cache := (childPath curPath seg, fid) :: st1.cache,
                         creates := st1.creates ++ [childPath curPath seg] }

/-- Model of `localPath.split('/').filter(s => s.length > 0)`. -/
def splitSegs (p : String) : List String :=
  ((splitOnChar '/' p.data).map (fun l => String.mk l)).filter (fun s => s != "")

/-- Model of `ensureFolderPathExists`: full-path cache check first, then the empty
/ `"."` root short-circuit, then the segment walk starting from the
configured sync-root folder id. -/
def ensureFolderPathExists (env : MatEnv) (rootId : String) (localPath : String)
    (st : MatState) : Except MatError (String × MatState) :=
  match cacheLookup st.cache localPath with
  | some cid => .ok (cid, st)
  | none =>
    if localPath == "" || localPath == "." then .ok (rootId, st)
    else ensureSegments env (splitSegs localPath) "" rootId st

/-- A sequence of materializer calls within one run (e.g. one per
uploaded file), threading the run-scoped state. -/
def runEnsure (env : MatEnv) (rootId : String) :
    List String → MatState → Except MatError MatState
  | [], st => .ok st
  | p :: ps, st =>
    match ensureFolderPathExists env rootId p st with
    | .error e => .error e
    | .ok (_, st') => runEnsure env rootId ps st'

/-- The join of the nonempty segments with single slashes; used to state
which paths are already in normal form. -/
def joinSegs : List String → String
  | [] => ""
  | s :: rest => rest.foldl (fun a b => a ++ "/" ++ b) s

/-- The cumulative sub-path reached after walking all segments from a
given starting path. -/
def finPath : String → List String → String
  | cur, [] => cur
  | cur, s :: rest => finPath (childPath cur s) rest

/-- Concrete effect environment: every remote call succeeds and the
content-equality oracle reports divergent contents. -/
def effDivergent : Effects :=
  ⟨fun _ => true, fun _ => true, fun _ => true, fun _ _ => false⟩

/-- Concrete effect environment: every remote call succeeds and the
content-equality oracle reports identical contents. -/
def effIdentical : Effects :=
  ⟨fun _ => true, fun _ => true, fun _ => true, fun _ _ => true⟩

/-- Concrete effect environment: DELETE responses are non-OK, everything
else succeeds. -/
def effDeleteFail : Effects :=
  ⟨fun _ => true, fun _ => true, fun _ => false, fun _ _ => false⟩

/-- Concrete effect environment: upload responses are non-OK, everything
else succeeds. -/
def effUploadFail : Effects :=
  ⟨fun _ => false, fun _ => true, fun _ => true, fun _ _ => false⟩

/-- Concrete effect environment: download responses are non-OK,
everything else succeeds. -/
def effDownloadFail : Effects :=
  ⟨fun _ => true, fun _ => false, fun _ => true, fun _ _ => false⟩

section MapLemmas

variable {α : Type} {key : α → String} {p : String}

theorem mapLookup_some_key {l : List α} {d : α}
    (h : mapLookup key l p = some d) : key d = p := by
  induction l with
  | nil => cases h
  | cons y ys ih =>
    simp only [mapLookup] at h
    cases hys : mapLookup key ys p with
    | some d' =>
      rw [hys] at h
      cases h
      exact ih hys
    | none =>
      rw [hys] at h
      by_cases hy : (key y == p) = true
      · rw [if_pos hy] at h
        cases h
        exact eq_of_beq hy
      · rw [if_neg hy] at h
        cases h

theorem mapLookup_mem {l : List α} {d : α}
    (h : mapLookup key l p = some d) : d ∈ l := by
  induction l with
  | nil => cases h
  | cons y ys ih =>
    simp only [mapLookup] at h
    cases hys : mapLookup key ys p with
    | some d' =>
      rw [hys] at h
      cases h
      exact List.mem_cons_of_mem y (ih hys)
    | none =>
      rw [hys] at h
      by_cases hy : (key y == p) = true
      · rw [if_pos hy] at h
        cases h
        exact List.mem_cons_self _ ys
      · rw [if_neg hy] at h
        cases h

theorem mapLookup_ne_none_of_mem {l : List α} {x : α}
    (hx : x ∈ l) (hk : key x = p) : mapLookup key l p ≠ none := by
  induction l with
  | nil => cases hx
  | cons y ys ih =>
    simp only [mapLookup]
    cases hys : mapLookup key ys p with
    | some d' => simp
    | none =>
      rcases List.mem_cons.1 hx with rfl | hmem
      · rw [if_pos (by simp [hk])]
        simp
      · exact absurd hys (ih hmem)

theorem mapLookup_none_not_mem {l : List α} {x : α}
    (h : mapLookup key l p = none) (hx : x ∈ l) : key x ≠ p :=
  fun hk => mapLookup_ne_none_of_mem hx hk h

theorem mapLookup_of_mem_nodup {l : List α} {x : α}
    (hnd : (l.map key).Nodup) (hx : x ∈ l) (hk : key x = p) :
    mapLookup key l p = some x := by
  induction l with
  | nil => cases hx
  | cons y ys ih =>
    simp only [List.map_cons, List.nodup_cons] at hnd
    simp only [mapLookup]
    rcases List.mem_cons.1 hx with rfl | hmem
    · have hys : mapLookup key ys p = none := by
        cases hys : mapLookup key ys p with
        | none => rfl
        | some d' =>
          exfalso
          have hd' : key d' = p := mapLookup_some_key hys
          have : key d' ∈ ys.map key := List.mem_map_of_mem key (mapLookup_mem hys)
          rw [hd', ← hk] at this
          exact hnd.1 this
      rw [hys, if_pos (by simp [hk])]
    · rw [ih hnd.2 hmem]

end MapLemmas

section FoldLemmas

variable {α : Type}

theorem foldSteps_cons_err (step : α → SyncTrace) (x : α) (xs : List α) (e : SyncError)
    (h : (step x).err = some e) :
    foldSteps step (x :: xs) = ⟨(step x).ops, (step x).cnt, some e⟩ := by
  simp [foldSteps, h]

theorem foldSteps_cons_ok (step : α → SyncTrace) (x : α) (xs : List α)
    (h : (step x).err = none) :
    foldSteps step (x :: xs) =
      ⟨(step x).ops ++ (foldSteps step xs).ops,
        (step x).cnt.add (foldSteps step xs).cnt, (foldSteps step xs).err⟩ := by
  simp [foldSteps, h]

theorem foldSteps_ops_mem {step : α → SyncTrace} {xs : List α} {op : SyncOp}
    (h : op ∈ (foldSteps step xs).ops) : ∃ x, x ∈ xs ∧ op ∈ (step x).ops := by
  induction xs with
  | nil => simp [foldSteps] at h
  | cons x rest ih =>
    cases herr : (step x).err with
    | some e =>
      rw [foldSteps_cons_err step x rest e herr] at h
      exact ⟨x, List.mem_cons_self x rest, h⟩
    | none =>
      rw [foldSteps_cons_ok step x rest herr] at h
      rcases List.mem_append.1 h with h1 | h2
      · exact ⟨x, List.mem_cons_self x rest, h1⟩
      · obtain ⟨y, hy, hop⟩ := ih h2
        exact ⟨y, List.mem_cons_of_mem x hy, hop⟩

theorem foldSteps_err_none {step : α → SyncTrace} {xs : List α}
    (h : ∀ x ∈ xs, (step x).err = none) : (foldSteps step xs).err = none := by
  induction xs with
  | nil => rfl
  | cons x rest ih =>
    rw [foldSteps_cons_ok step x rest (h x (List.mem_cons_self x rest))]
    exact ih (fun y hy => h y (List.mem_cons_of_mem x hy))

theorem foldSteps_mem_ops {step : α → SyncTrace} {xs : List α} {x : α} {op : SyncOp}
    (hall : ∀ y ∈ xs, (step y).err = none) (hx : x ∈ xs)
    (hop : op ∈ (step x).ops) : op ∈ (foldSteps step xs).ops := by
  induction xs with
  | nil => cases hx
  | cons y rest ih =>
    rw [foldSteps_cons_ok step y rest (hall y (List.mem_cons_self y rest))]
    rcases List.mem_cons.1 hx with rfl | hmem
    · exact List.mem_append.2 (Or.inl hop)
    · exact List.mem_append.2
        (Or.inr (ih (fun z hz => hall z (List.mem_cons_of_mem y hz)) hmem))

theorem foldSteps_conflicts_zero {step : α → SyncTrace} {xs : List α}
    (h : ∀ x ∈ xs, (step x).cnt.conflicts = 0) :
    (foldSteps step xs).cnt.conflicts = 0 := by
  induction xs with
  | nil => rfl
  | cons x rest ih =>
    have hx := h x (List.mem_cons_self x rest)
    have hrest := ih (fun y hy => h y (List.mem_cons_of_mem x hy))
    cases herr : (step x).err with
    | some e =>
      rw [foldSteps_cons_err step x rest e herr]
      exact hx
    | none =>
      rw [foldSteps_cons_ok step x rest herr]
      simp [Counters.add, hx, hrest]

end FoldLemmas

section StepLemmas

theorem handleConflict_err_none (policy : ConflictPolicy) (eff : Effects)
    (f : LocalFile) (d : DriveFile) (hu : eff.uploadOk f.path = true)
    (hd : eff.downloadOk d.path = true) :
    (handleConflict policy eff f d).err = none := by
  cases policy <;> simp [handleConflict, hu, hd]

theorem handleConflict_opPath {policy : ConflictPolicy} {eff : Effects}
    {f : LocalFile} {d : DriveFile} {op : SyncOp}
    (h : op ∈ (handleConflict policy eff f d).ops) :
    op.opPath = f.path ∨ op.opPath = d.path := by
  cases policy <;> simp only [handleConflict] at h
  · split at h <;> (simp at h; simp [h, SyncOp.opPath])
  · simp at h
  · split at h <;> (simp at h; simp [h, SyncOp.opPath])
  · simp at h
    simp [h, SyncOp.opPath]

theorem handleConflict_no_delete (policy : ConflictPolicy) (eff : Effects)
    (f : LocalFile) (d : DriveFile) (q i : String) :
    SyncOp.deleteRemote q i ∉ (handleConflict policy eff f d).ops := by
  cases policy <;> simp only [handleConflict] <;> first
    | simp
    | (split <;> simp)

theorem handleConflict_download_policy (policy : ConflictPolicy) (eff : Effects)
    (f : LocalFile) (d : DriveFile) (q i : String)
    (h : SyncOp.download q i ∈ (handleConflict policy eff f d).ops) :
    policy = .keepRemote := by
  cases policy <;> simp only [handleConflict] at h
  · split at h <;> simp at h
  · simp at h
  · rfl
  · simp at h

theorem vaultStep_err_none {cfg : SyncConfig} {eff : Effects}
    {dm : String → Option DriveFile} {f : LocalFile} (hok : eff.allOk) :
    (vaultStep cfg eff dm f).err = none := by
  obtain ⟨hu, hdl, -⟩ := hok
  unfold vaultStep
  split
  · split
    · simp [hu]
    · rename_i d hdm
      split
      · split
        · rfl
        · split
          · rename_i ops cnt e heq
            have hce := handleConflict_err_none cfg.policy eff f d
              (hu f.path) (hdl d.path)
            rw [heq] at hce
            simp at hce
          · rfl
      · split
        · simp [hu]
        · rfl
  · rfl

theorem vaultStep_opPath {cfg : SyncConfig} {eff : Effects}
    {drives : List DriveFile} {f : LocalFile} {op : SyncOp}
    (h : op ∈ (vaultStep cfg eff (lookupDrive drives) f).ops) :
    op.opPath = f.path := by
  unfold vaultStep at h
  split at h
  · split at h
    · split at h <;> (simp at h; simp [h, SyncOp.opPath])
    · rename_i d heq
      have hdp : d.path = f.path := mapLookup_some_key heq
      split at h
      · split at h
        · simp at h
        · split at h <;>
            (rename_i ops cnt e hhc
             simp only [] at h
             have hmem : op ∈ (handleConflict cfg.policy eff f d).ops := by
               rw [hhc]
               exact h
             rcases handleConflict_opPath hmem with h1 | h2
             · exact h1
             · rw [h2, hdp])
      · split at h
        · split at h <;> (simp at h; simp [h, SyncOp.opPath])
        · simp at h
  · simp at h

theorem vaultStep_no_delete {cfg : SyncConfig} {eff : Effects}
    {dm : String → Option DriveFile} {f : LocalFile} {q i : String} :
    SyncOp.deleteRemote q i ∉ (vaultStep cfg eff dm f).ops := by
  intro h
  unfold vaultStep at h
  split at h
  · split at h
    · split at h <;> simp at h
    · rename_i d hdm
      split at h
      · split at h
        · simp at h
        · split at h <;>
            (rename_i ops cnt e hhc
             refine handleConflict_no_delete cfg.policy eff f d q i ?_
             rw [hhc]
             exact h)
      · split at h
        · split at h <;> simp at h
        · simp at h
  · simp at h

theorem vaultStep_download_policy {cfg : SyncConfig} {eff : Effects}
    {dm : String → Option DriveFile} {f : LocalFile} {q i : String}
    (h : SyncOp.download q i ∈ (vaultStep cfg eff dm f).ops) :
    cfg.policy = .keepRemote := by
  unfold vaultStep at h
  split at h
  · split at h
    · split at h <;> simp at h
    · rename_i d hdm
      split at h
      · split at h
        · simp at h
        · split at h <;>
            (rename_i ops cnt e hhc
             refine handleConflict_download_policy cfg.policy eff f d q i ?_
             rw [hhc]
             exact h)
      · split at h
        · split at h <;> simp at h
        · simp at h
  · simp at h

theorem vaultStep_not_toDrive {cfg : SyncConfig} {eff : Effects}
    {dm : String → Option DriveFile} {f : LocalFile}
    (h : cfg.toDrive = false) :
    vaultStep cfg eff dm f = ⟨[], Counters.zero, none⟩ := by
  simp [vaultStep, h]

theorem driveStep_err_none {cfg : SyncConfig} {eff : Effects}
    {vm : String → Option LocalFile} {d : DriveFile} (hok : eff.allOk) :
    (driveStep cfg eff vm d).err = none := by
  obtain ⟨-, hdl, hdel⟩ := hok
  unfold driveStep
  split
  · split
    · split
      · simp [hdl]
      · rfl
    · split
      · simp [hdel]
      · rfl
  · split
    · rfl
    · split
      · simp [hdl]
      · rfl

theorem driveStep_opPath {cfg : SyncConfig} {eff : Effects}
    {vm : String → Option LocalFile} {d : DriveFile} {op : SyncOp}
    (h : op ∈ (driveStep cfg eff vm d).ops) :
    op.opPath = d.path := by
  unfold driveStep at h
  split at h
  · split at h
    · split at h
      · split at h <;> (simp at h; simp [h, SyncOp.opPath])
      · simp at h
    · split at h
      · split at h <;> (simp at h; simp [h, SyncOp.opPath])
      · simp at h
  · split at h
    · simp at h
    · split at h
      · split at h <;> (simp at h; simp [h, SyncOp.opPath])
      · simp at h

theorem driveStep_conflicts_zero {cfg : SyncConfig} {eff : Effects}
    {vm : String → Option LocalFile} {d : DriveFile} :
    (driveStep cfg eff vm d).cnt.conflicts = 0 := by
  unfold driveStep
  split
  · split
    · split
      · split <;> rfl
      · rfl
    · split
      · split <;> rfl
      · rfl
  · split
    · rfl
    · split
      · split <;> rfl
      · rfl

end StepLemmas

section RunLemmas

theorem performSync_ops_cases {cfg : SyncConfig} {eff : Effects}
    {locals : List LocalFile} {drives : List DriveFile} {op : SyncOp}
    (h : op ∈ (performSync cfg eff locals drives).ops) :
    (∃ f, f ∈ locals ∧ op ∈ (vaultStep cfg eff (lookupDrive drives) f).ops) ∨
      (cfg.fromDrive = true ∧
        ∃ d, d ∈ drives ∧ op ∈ (driveStep cfg eff (lookupLocal locals) d).ops) := by
  unfold performSync at h
  split at h
  · rename_i ops1 cnt1 e hfe
    have h1 : op ∈ (foldSteps (vaultStep cfg eff (lookupDrive drives)) locals).ops := by
      rw [hfe]
      exact h
    exact Or.inl (foldSteps_ops_mem h1)
  · rename_i ops1 cnt1 hfe
    split at h
    · rename_i hfd
      split at h
      rename_i ops2 cnt2 e2 hfe2
      have h12 : op ∈ ops1 ++ ops2 := h
      rcases List.mem_append.1 h12 with h1 | h2
      · have hv : op ∈ (foldSteps (vaultStep cfg eff (lookupDrive drives)) locals).ops := by
          rw [hfe]
          exact h1
        exact Or.inl (foldSteps_ops_mem hv)
      · have hd : op ∈ (foldSteps (driveStep cfg eff (lookupLocal locals)) drives).ops := by
          rw [hfe2]
          exact h2
        exact Or.inr ⟨hfd, foldSteps_ops_mem hd⟩
    · have hv : op ∈ (foldSteps (vaultStep cfg eff (lookupDrive drives)) locals).ops := by
        rw [hfe]
        exact h
      exact Or.inl (foldSteps_ops_mem hv)

theorem performSync_mem_vault {cfg : SyncConfig} {eff : Effects}
    {locals : List LocalFile} {drives : List DriveFile} {f : LocalFile} {op : SyncOp}
    (hok : eff.allOk) (hf : f ∈ locals)
    (hop : op ∈ (vaultStep cfg eff (lookupDrive drives) f).ops) :
    op ∈ (performSync cfg eff locals drives).ops := by
  have hv : ∀ x ∈ locals, (vaultStep cfg eff (lookupDrive drives) x).err = none :=
    fun x _ => vaultStep_err_none hok
  have hferr : (foldSteps (vaultStep cfg eff (lookupDrive drives)) locals).err = none :=
    foldSteps_err_none hv
  have hmem : op ∈ (foldSteps (vaultStep cfg eff (lookupDrive drives)) locals).ops :=
    foldSteps_mem_ops hv hf hop
  unfold performSync
  split
  · rename_i ops1 cnt1 e hfe
    rw [hfe] at hferr
    cases hferr
  · rename_i ops1 cnt1 hfe
    have hops1 : op ∈ ops1 := by
      rw [hfe] at hmem
      exact hmem
    split
    · split
      exact List.mem_append.2 (Or.inl hops1)
    · exact hops1

theorem performSync_mem_drive {cfg : SyncConfig} {eff : Effects}
    {locals : List LocalFile} {drives : List DriveFile} {d : DriveFile} {op : SyncOp}
    (hok : eff.allOk) (hfd : cfg.fromDrive = true) (hd : d ∈ drives)
    (hop : op ∈ (driveStep cfg eff (lookupLocal locals) d).ops) :
    op ∈ (performSync cfg eff locals drives).ops := by
  have hv : ∀ x ∈ locals, (vaultStep cfg eff (lookupDrive drives) x).err = none :=
    fun x _ => vaultStep_err_none hok
  have hferr : (foldSteps (vaultStep cfg eff (lookupDrive drives)) locals).err = none :=
    foldSteps_err_none hv
  have hdall : ∀ x ∈ drives, (driveStep cfg eff (lookupLocal locals) x).err = none :=
    fun x _ => driveStep_err_none hok
  have hmem : op ∈ (foldSteps (driveStep cfg eff (lookupLocal locals)) drives).ops :=
    foldSteps_mem_ops hdall hd hop
  unfold performSync
  split
  · rename_i ops1 cnt1 e hfe
    rw [hfe] at hferr
    cases hferr
  · rename_i ops1 cnt1 hfe
    split
    · split
      rename_i ops2 cnt2 e2 hfe2
      have hops2 : op ∈ ops2 := by
        rw [hfe2] at hmem
        exact hmem
      exact List.mem_append.2 (Or.inr hops2)
    · rename_i hnfd
      exact absurd hfd hnfd

theorem performSync_conflicts_not_toDrive {cfg : SyncConfig} {eff : Effects}
    {locals : List LocalFile} {drives : List DriveFile}
    (h : cfg.toDrive = false) :
    (performSync cfg eff locals drives).cnt.conflicts = 0 := by
  have hv : (foldSteps (vaultStep cfg eff (lookupDrive drives)) locals).cnt.conflicts = 0 :=
    foldSteps_conflicts_zero (fun x _ => by
      rw [vaultStep_not_toDrive h]
      rfl)
  have hd : (foldSteps (driveStep cfg eff (lookupLocal locals)) drives).cnt.conflicts = 0 :=
    foldSteps_conflicts_zero (fun x _ => driveStep_conflicts_zero)
  unfold performSync
  split
  · rename_i ops1 cnt1 e hfe
    rw [hfe] at hv
    exact hv
  · rename_i ops1 cnt1 hfe
    rw [hfe] at hv
    split
    · split
      rename_i ops2 cnt2 e2 hfe2
      rw [hfe2] at hd
      show (cnt1.add cnt2).conflicts = 0
      have hv1 : cnt1.conflicts = 0 := hv
      have hd2 : cnt2.conflicts = 0 := hd
      simp [Counters.add, hv1, hd2]
    · exact hv

end RunLemmas

section BranchLemmas

variable {cfg : SyncConfig} {eff : Effects} {dm : String → Option DriveFile}
  {vm : String → Option LocalFile} {f : LocalFile} {d : DriveFile}

theorem vaultStep_identical_skip (hdm : dm f.path = some d)
    (hlc : cfg.lastSync + 2000 < f.mtime) (hrc : cfg.lastSync + 2000 < d.mtime)
    (hic : eff.identicalContent f d = true) :
    vaultStep cfg eff dm f = if cfg.toDrive then ⟨[], Counters.zero, none⟩
      else ⟨[], Counters.zero, none⟩ := by
  simp [vaultStep, hdm, hlc, hrc, hic]

theorem vaultStep_identical_skip' (hdm : dm f.path = some d)
    (hlc : cfg.lastSync + 2000 < f.mtime) (hrc : cfg.lastSync + 2000 < d.mtime)
    (hic : eff.identicalContent f d = true) :
    vaultStep cfg eff dm f = ⟨[], Counters.zero, none⟩ := by
  rw [vaultStep_identical_skip hdm hlc hrc hic]
  split <;> rfl

theorem vaultStep_update_in_place (htd : cfg.toDrive = true)
    (hdm : dm f.path = some d) (hlc : cfg.lastSync + 2000 < f.mtime)
    (hrc : ¬cfg.lastSync + 2000 < d.mtime) (hup : eff.uploadOk f.path = true) :
    vaultStep cfg eff dm f = ⟨[.uploadUpdate f.path d.id], ⟨1, 0, 0, 0⟩, none⟩ := by
  simp [vaultStep, htd, hdm, hlc, hrc, hup]

theorem vaultStep_skip_not_changed (hdm : dm f.path = some d)
    (hlc : ¬cfg.lastSync + 2000 < f.mtime) :
    vaultStep cfg eff dm f = ⟨[], Counters.zero, none⟩ := by
  simp [vaultStep, hdm, hlc]

theorem vaultStep_conflict_counted (htd : cfg.toDrive = true)
    (hdm : dm f.path = some d) (hlc : cfg.lastSync + 2000 < f.mtime)
    (hrc : cfg.lastSync + 2000 < d.mtime) (hic : eff.identicalContent f d = false)
    (herr : (handleConflict cfg.policy eff f d).err = none) :
    vaultStep cfg eff dm f =
      ⟨(handleConflict cfg.policy eff f d).ops,
        (handleConflict cfg.policy eff f d).cnt.add ⟨0, 0, 0, 1⟩, none⟩ := by
  simp only [vaultStep, htd, if_true, hdm]
  rw [if_pos ⟨hlc, hrc⟩, hic]
  simp only [Bool.false_eq_true, if_false]
  split
  · rename_i ops cnt e hhc
    rw [hhc] at herr
    cases herr
  · rename_i ops cnt hhc
    rw [hhc]

theorem driveStep_both_changed_skip (hvm : vm d.path = some f)
    (hrc : cfg.lastSync + 2000 < d.mtime) (hlc : cfg.lastSync + 2000 < f.mtime) :
    driveStep cfg eff vm d = ⟨[], Counters.zero, none⟩ := by
  simp [driveStep, hvm, hrc, hlc]

theorem driveStep_in_both_download (hvm : vm d.path = some f)
    (hrc : cfg.lastSync + 2000 < d.mtime) (hlc : ¬cfg.lastSync + 2000 < f.mtime)
    (hdl : eff.downloadOk d.path = true) :
    driveStep cfg eff vm d = ⟨[.download d.path d.id], ⟨0, 1, 0, 0⟩, none⟩ := by
  simp [driveStep, hvm, hrc, hlc, hdl]

theorem driveStep_in_both_skip (hvm : vm d.path = some f)
    (hrc : ¬cfg.lastSync + 2000 < d.mtime) :
    driveStep cfg eff vm d = ⟨[], Counters.zero, none⟩ := by
  simp [driveStep, hvm, hrc]

theorem driveStep_remote_only_download (hvm : vm d.path = none)
    (hfd : cfg.fromDrive = true) (hrc : cfg.lastSync + 2000 < d.mtime)
    (hdl : eff.downloadOk d.path = true) :
    driveStep cfg eff vm d = ⟨[.download d.path d.id], ⟨0, 1, 0, 0⟩, none⟩ := by
  simp [driveStep, hvm, hfd, hrc, hdl]

theorem driveStep_remote_only_delete (hvm : vm d.path = none)
    (htd : cfg.toDrive = true) (hrc : ¬cfg.lastSync + 2000 < d.mtime)
    (hdel : eff.deleteOk d.path = true) :
    driveStep cfg eff vm d = ⟨[.deleteRemote d.path d.id], ⟨0, 0, 1, 0⟩, none⟩ := by
  simp [driveStep, hvm, htd, hrc, hdel]

theorem driveStep_remote_only_delete_fail (hvm : vm d.path = none)
    (htd : cfg.toDrive = true) (hrc : ¬cfg.lastSync + 2000 < d.mtime)
    (hdel : eff.deleteOk d.path = false) :
    driveStep cfg eff vm d = ⟨[.deleteRemote d.path d.id], Counters.zero, none⟩ := by
  simp [driveStep, hvm, htd, hrc, hdel]

theorem driveStep_remote_only_skip (hvm : vm d.path = none)
    (htd : cfg.toDrive = false) (hrc : ¬cfg.lastSync + 2000 < d.mtime) :
    driveStep cfg eff vm d = ⟨[], Counters.zero, none⟩ := by
  simp [driveStep, hvm, htd, hrc]

end BranchLemmas

section AbsenceLemmas

theorem run_no_op_for_both_path {cfg : SyncConfig} {eff : Effects}
    {locals : List LocalFile} {drives : List DriveFile} {f : LocalFile} {d : DriveFile}
    (hLnd : (locals.map LocalFile.path).Nodup) (hDnd : (drives.map DriveFile.path).Nodup)
    (hf : f ∈ locals) (hd : d ∈ drives) (hpd : d.path = f.path)
    (hvf : (vaultStep cfg eff (lookupDrive drives) f).ops = [])
    (hdd : (driveStep cfg eff (lookupLocal locals) d).ops = []) :
    ∀ op ∈ (performSync cfg eff locals drives).ops, op.opPath ≠ f.path := by
  intro op hop hpath
  rcases performSync_ops_cases hop with ⟨f', hf', hopf⟩ | ⟨hfd, d', hd', hopd⟩
  · have hfp' : f'.path = f.path := (vaultStep_opPath hopf) ▸ hpath
    have h1 : lookupLocal locals f.path = some f' :=
      mapLookup_of_mem_nodup hLnd hf' hfp'
    have h2 : lookupLocal locals f.path = some f :=
      mapLookup_of_mem_nodup hLnd hf rfl
    rw [h1] at h2
    cases h2
    rw [hvf] at hopf
    cases hopf
  · have hdp' : d'.path = f.path := (driveStep_opPath hopd) ▸ hpath
    have h1 : lookupDrive drives f.path = some d' :=
      mapLookup_of_mem_nodup hDnd hd' hdp'
    have h2 : lookupDrive drives f.path = some d :=
      mapLookup_of_mem_nodup hDnd hd hpd
    rw [h1] at h2
    cases h2
    rw [hdd] at hopd
    cases hopd

theorem run_no_op_for_drive_only_path {cfg : SyncConfig} {eff : Effects}
    {locals : List LocalFile} {drives : List DriveFile} {d : DriveFile}
    (hDnd : (drives.map DriveFile.path).Nodup)
    (hd : d ∈ drives) (hnl : lookupLocal locals d.path = none)
    (hdd : cfg.fromDrive = true → (driveStep cfg eff (lookupLocal locals) d).ops = []) :
    ∀ op ∈ (performSync cfg eff locals drives).ops, op.opPath ≠ d.path := by
  intro op hop hpath
  rcases performSync_ops_cases hop with ⟨f', hf', hopf⟩ | ⟨hfd, d', hd', hopd⟩
  · have hfp' : f'.path = d.path := (vaultStep_opPath hopf) ▸ hpath
    exact mapLookup_none_not_mem hnl hf' hfp'
  · have hdp' : d'.path = d.path := (driveStep_opPath hopd) ▸ hpath
    have h1 : lookupDrive drives d.path = some d' :=
      mapLookup_of_mem_nodup hDnd hd' hdp'
    have h2 : lookupDrive drives d.path = some d :=
      mapLookup_of_mem_nodup hDnd hd rfl
    rw [h1] at h2
    cases h2
    rw [hdd hfd] at hopd
    cases hopd

end AbsenceLemmas

section MatLemmas

theorem length_pos_of_ne_empty {s : String} (h : s ≠ "") : 0 < s.length := by
  cases s with
  | mk l =>
    cases l with
    | nil => exact absurd rfl h
    | cons c cs => simp [String.length]

theorem ne_empty_of_length_pos {s : String} (h : 0 < s.length) : s ≠ "" := by
  intro he
  rw [he] at h
  cases h

theorem cacheLookup_cons_none {k v q : String} {c : List (String × String)}
    (h : cacheLookup ((k, v) :: c) q = none) : cacheLookup c q = none := by
  unfold cacheLookup at h ⊢
  by_cases hk : (((k, v) : String × String).1 == q) = true
  · rw [List.find?_cons_of_pos (p := fun e => e.1 == q) c hk] at h
    simp at h
  · rw [List.find?_cons_of_neg (p := fun e => e.1 == q) c hk] at h
    exact h

theorem cacheLookup_cons_self {q v : String} {c : List (String × String)} :
    cacheLookup ((q, v) :: c) q = some v := by
  unfold cacheLookup
  rw [List.find?_cons_of_pos (p := fun e : String × String => e.1 == q) c (by simp)]
  rfl

theorem cacheLookup_mem_ne_none {q v : String} {c : List (String × String)}
    (hm : (q, v) ∈ c) : cacheLookup c q ≠ none := by
  unfold cacheLookup
  intro h
  rw [Option.map_eq_none'] at h
  have := List.find?_eq_none.1 h (q, v) hm
  simp at this

theorem cacheLookup_append_ne_none {q : String} {a c : List (String × String)}
    (h : cacheLookup c q ≠ none) : cacheLookup (a ++ c) q ≠ none := by
  induction a with
  | nil => exact h
  | cons e rest ih =>
    unfold cacheLookup at ih ⊢
    by_cases he : (e.1 == q) = true
    · rw [List.cons_append,
        List.find?_cons_of_pos (p := fun e : String × String => e.1 == q) _ he]
      simp
    · rw [List.cons_append,
        List.find?_cons_of_neg (p := fun e : String × String => e.1 == q) _ he]
      exact ih

theorem cacheLookup_append_longer {q : String} {n : Nat}
    {a c : List (String × String)}
    (ha : ∀ e ∈ a, n < e.1.length) (hq : q.length ≤ n) :
    cacheLookup (a ++ c) q = cacheLookup c q := by
  induction a with
  | nil => rfl
  | cons e rest ih =>
    have hlen : n < e.1.length := ha e (List.mem_cons_self e rest)
    have hne : (e.1 == q) = false := by
      simp only [beq_eq_false_iff_ne, ne_eq]
      intro hqe
      rw [hqe] at hlen
      omega
    unfold cacheLookup at ih ⊢
    rw [List.cons_append,
      List.find?_cons_of_neg (p := fun e : String × String => e.1 == q) _ (by simp [hne])]
    exact ih (fun e' he' => ha e' (List.mem_cons_of_mem _ he'))

theorem childPath_len {cur seg : String} (h : seg ≠ "") :
    cur.length < (childPath cur seg).length := by
  unfold childPath
  by_cases hc : (cur == "") = true
  · rw [if_pos hc]
    have hce : cur = "" := by simpa using hc
    rw [hce]
    exact length_pos_of_ne_empty h
  · rw [if_neg hc]
    rw [String.length_append, String.length_append]
    have h1 : ("/" : String).length = 1 := rfl
    omega

theorem childPath_ne_empty {cur seg : String} (h : seg ≠ "") :
    childPath cur seg ≠ "" :=
  ne_empty_of_length_pos (Nat.lt_of_le_of_lt (Nat.zero_le _) (childPath_len h))

theorem splitSegs_ne_empty {p : String} : ∀ s ∈ splitSegs p, s ≠ "" := by
  intro s hs
  unfold splitSegs at hs
  have := List.of_mem_filter hs
  simpa using this

theorem finPath_foldl {l : List String} :
    ∀ {cur : String}, cur ≠ "" →
      finPath cur l = l.foldl (fun a b => a ++ "/" ++ b) cur := by
  induction l with
  | nil =>
    intro cur _
    rfl
  | cons s r ih =>
    intro cur hc
    have hcp : childPath cur s = cur ++ "/" ++ s := by
      unfold childPath
      rw [if_neg (by simp only [beq_iff_eq]; exact hc)]
    show finPath (childPath cur s) r = _
    rw [hcp, List.foldl_cons]
    refine ih ?_
    apply ne_empty_of_length_pos
    rw [String.length_append, String.length_append]
    have h1 : 0 < cur.length := length_pos_of_ne_empty hc
    omega

theorem finPath_join {l : List String} (hl : ∀ s ∈ l, s ≠ "") :
    finPath "" l = joinSegs l := by
  cases l with
  | nil => rfl
  | cons s r =>
    have hs : s ≠ "" := hl s (List.mem_cons_self s r)
    have hcp : childPath "" s = s := by
      unfold childPath
      rw [if_pos (by simp)]
    show finPath (childPath "" s) r = joinSegs (s :: r)
    rw [hcp]
    show finPath s r = r.foldl (fun a b => a ++ "/" ++ b) s
    exact finPath_foldl hs

theorem createDriveFolder_state {env : MatEnv} {st : MatState}
    {seg parentId fid : String} {st1 : MatState}
    (h : createDriveFolder env st seg parentId = .ok (fid, st1)) :
    st1.cache = st.cache ∧ st1.creates = st.creates := by
  unfold createDriveFolder at h
  by_cases hco : env.createOk = true
  · rw [if_pos hco] at h
    obtain ⟨h1, h2⟩ : "folder_" ++ toString st.nextId = fid ∧
        ({ st with folders := ⟨"folder_" ++ toString st.nextId, seg, parentId⟩ :: st.folders,
                   nextId := st.nextId + 1 } : MatState) = st1 := by
      simpa using h
    rw [← h2]
    exact ⟨rfl, rfl⟩
  · rw [if_neg hco] at h
    cases h

theorem ensureSegments_spec (env : MatEnv) (segs : List String) :
    ∀ (cur parentId : String) (st : MatState) (idr : String) (st' : MatState),
      (∀ s ∈ segs, s ≠ "") →
      ensureSegments env segs cur parentId st = .ok (idr, st') →
      (∃ a, st'.cache = a ++ st.cache ∧ ∀ e ∈ a, cur.length < e.1.length) ∧
        (∃ b, st'.creates = st.creates ++ b ∧ b.Nodup ∧
          ∀ q ∈ b, cur.length < q.length ∧ cacheLookup st.cache q = none ∧
            cacheLookup st'.cache q ≠ none) ∧
        (segs ≠ [] → cacheLookup st'.cache (finPath cur segs) = some idr) := by
  induction segs with
  | nil =>
    intro cur parentId st idr st' hne h
    simp only [ensureSegments] at h
    obtain ⟨h1, h2⟩ : parentId = idr ∧ st = st' := by simpa using h
    subst h1
    subst h2
    exact ⟨⟨[], by simp, by simp⟩, ⟨[], by simp, by simp, by simp⟩,
      fun hc => absurd rfl hc⟩
  | cons seg rest ih =>
    intro cur parentId st idr st' hne h
    have hseg : seg ≠ "" := hne seg (List.mem_cons_self seg rest)
    have hrest : ∀ s ∈ rest, s ≠ "" := fun s hs => hne s (List.mem_cons_of_mem _ hs)
    have hlen : cur.length < (childPath cur seg).length := childPath_len hseg
    simp only [ensureSegments] at h
    cases hcl : cacheLookup st.cache (childPath cur seg) with
    | some cid =>
      rw [hcl] at h
      obtain ⟨⟨a, hca, hal⟩, ⟨b, hcr, hbnd, hbq⟩, hD⟩ :=
        ih (childPath cur seg) cid st idr st' hrest h
      refine ⟨⟨a, hca, fun e he => Nat.lt_trans hlen (hal e he)⟩,
        ⟨b, hcr, hbnd, fun q hq =>
          ⟨Nat.lt_trans hlen (hbq q hq).1, (hbq q hq).2.1, (hbq q hq).2.2⟩⟩, ?_⟩
      intro _
      show cacheLookup st'.cache (finPath (childPath cur seg) rest) = some idr
      by_cases hrn : rest = []
      · subst hrn
        simp only [ensureSegments] at h
        obtain ⟨h1, h2⟩ : cid = idr ∧ st = st' := by simpa using h
        subst h1
        subst h2
        simpa [finPath] using hcl
      · exact hD hrn
    | none =>
      rw [hcl] at h
      cases hff : findDriveFolder env st.folders seg parentId with
      | some fid =>
        rw [hff] at h
        obtain ⟨⟨a, hca, hal⟩, ⟨b, hcr, hbnd, hbq⟩, hD⟩ :=
          ih (childPath cur seg) fid
            { st with cache := (childPath cur seg, fid) :: st.cache } idr st' hrest h
        refine ⟨⟨a ++ [(childPath cur seg, fid)], ?_, ?_⟩, ⟨b, ?_, hbnd, ?_⟩, ?_⟩
        · rw [List.append_assoc]
          simpa using hca
        · intro e he
          rcases List.mem_append.1 he with h1 | h2
          · exact Nat.lt_trans hlen (hal e h1)
          · have he2 : e = (childPath cur seg, fid) := by simpa using h2
            rw [he2]
            exact hlen
        · simpa using hcr
        · intro q hq
          obtain ⟨hq1, hq2, hq3⟩ := hbq q hq
          exact ⟨Nat.lt_trans hlen hq1, cacheLookup_cons_none hq2, hq3⟩
        · intro _
          show cacheLookup st'.cache (finPath (childPath cur seg) rest) = some idr
          by_cases hrn : rest = []
          · subst hrn
            simp only [ensureSegments] at h
            obtain ⟨h1, h2⟩ : fid = idr ∧
                ({ st with cache := (childPath cur seg, fid) :: st.cache } : MatState)
                  = st' := by simpa using h
            subst h1
            rw [← h2]
            simpa [finPath] using cacheLookup_cons_self
          · exact hD hrn
      | none =>
        rw [hff] at h
        cases hcd : createDriveFolder env st seg parentId with
        | error e =>
          rw [hcd] at h
          exact absurd h (by simp)
        | ok pr =>
          obtain ⟨fid, st1⟩ := pr
          rw [hcd] at h
          obtain ⟨hc1, hc2⟩ := createDriveFolder_state hcd
          obtain ⟨⟨a, hca, hal⟩, ⟨b, hcr, hbnd, hbq⟩, hD⟩ :=
            ih (childPath cur seg) fid
              { st1 with cache := (childPath cur seg, fid) :: st1.cache,
                         creates := st1.creates ++ [childPath cur seg] } idr st' hrest h
          have hca' : st'.cache = (a ++ [(childPath cur seg, fid)]) ++ st.cache := by
            rw [List.append_assoc]
            simpa [hc1] using hca
          have hmemc : (childPath cur seg, fid) ∈ st'.cache := by
            rw [hca']
            exact List.mem_append.2 (Or.inl (List.mem_append.2 (Or.inr (by simp))))
          refine ⟨⟨a ++ [(childPath cur seg, fid)], hca', ?_⟩,
            ⟨childPath cur seg :: b, ?_, ?_, ?_⟩, ?_⟩
          · intro e he
            rcases List.mem_append.1 he with h1 | h2
            · exact Nat.lt_trans hlen (hal e h1)
            · have he2 : e = (childPath cur seg, fid) := by simpa using h2
              rw [he2]
              exact hlen
          · rw [hcr]
            simp [hc2]
          · rw [List.nodup_cons]
            refine ⟨fun hmem => ?_, hbnd⟩
            have := (hbq _ hmem).1
            omega
          · intro q hq
            rcases List.mem_cons.1 hq with rfl | hqb
            · refine ⟨hlen, hcl, ?_⟩
              exact cacheLookup_mem_ne_none hmemc
            · obtain ⟨hq1, hq2, hq3⟩ := hbq q hqb
              refine ⟨Nat.lt_trans hlen hq1, ?_, hq3⟩
              have : cacheLookup st1.cache q = none := cacheLookup_cons_none hq2
              rw [hc1] at this
              exact this
          · intro _
            show cacheLookup st'.cache (finPath (childPath cur seg) rest) = some idr
            by_cases hrn : rest = []
            · subst hrn
              simp only [ensureSegments] at h
              obtain ⟨h1, h2⟩ : fid = idr ∧
                  ({ st1 with cache := (childPath cur seg, fid) :: st1.cache,
                              creates := st1.creates ++ [childPath cur seg] } : MatState)
                    = st' := by simpa using h
              subst h1
              rw [← h2]
              simpa [finPath] using cacheLookup_cons_self
            · exact hD hrn

theorem ensure_idempotent_aux (env : MatEnv) (rootId p : String) (st : MatState)
    (idr : String) (st' : MatState)
    (hp : joinSegs (splitSegs p) = p ∨ p = ".")
    (h : ensureFolderPathExists env rootId p st = .ok (idr, st')) :
    ensureFolderPathExists env rootId p st' = .ok (idr, st') := by
  unfold ensureFolderPathExists at h ⊢
  cases hcl : cacheLookup st.cache p with
  | some cid =>
    rw [hcl] at h
    obtain ⟨h1, h2⟩ : cid = idr ∧ st = st' := by simpa using h
    subst h1
    subst h2
    rw [hcl]
  | none =>
    rw [hcl] at h
    by_cases hpe : (p == "" || p == ".") = true
    · rw [if_pos hpe] at h
      obtain ⟨h1, h2⟩ : rootId = idr ∧ st = st' := by simpa using h
      subst h1
      subst h2
      rw [hcl, if_pos hpe]
    · rw [if_neg hpe] at h
      have hpne : p ≠ "" := by
        intro he
        apply hpe
        rw [he]
        rfl
      have hpd : p ≠ "." := by
        intro he
        apply hpe
        rw [he]
        rfl
      have hjp : joinSegs (splitSegs p) = p := by
        rcases hp with h0 | h0
        · exact h0
        · exact absurd h0 hpd
      have hsegne : splitSegs p ≠ [] := by
        intro hnil
        rw [hnil] at hjp
        exact hpne hjp.symm
      obtain ⟨-, -, hD⟩ := ensureSegments_spec env (splitSegs p) "" rootId st idr st'
        splitSegs_ne_empty h
      have hfin : finPath "" (splitSegs p) = p := by
        rw [finPath_join splitSegs_ne_empty, hjp]
      have hlook : cacheLookup st'.cache p = some idr := by
        rw [← hfin]
        exact hD hsegne
      rw [hlook]

theorem ensure_preserves_inv (env : MatEnv) (rootId p : String) {st : MatState}
    {idr : String} {st' : MatState}
    (h : ensureFolderPathExists env rootId p st = .ok (idr, st'))
    (hnd : st.creates.Nodup)
    (hc : ∀ q ∈ st.creates, cacheLookup st.cache q ≠ none) :
    st'.creates.Nodup ∧ ∀ q ∈ st'.creates, cacheLookup st'.cache q ≠ none := by
  unfold ensureFolderPathExists at h
  cases hcl : cacheLookup st.cache p with
  | some cid =>
    rw [hcl] at h
    obtain ⟨h1, h2⟩ : cid = idr ∧ st = st' := by simpa using h
    subst h2
    exact ⟨hnd, hc⟩
  | none =>
    rw [hcl] at h
    by_cases hpe : (p == "" || p == ".") = true
    · rw [if_pos hpe] at h
      obtain ⟨h1, h2⟩ : rootId = idr ∧ st = st' := by simpa using h
      subst h2
      exact ⟨hnd, hc⟩
    · rw [if_neg hpe] at h
      obtain ⟨⟨a, hca, hal⟩, ⟨b, hcr, hbnd, hbq⟩, -⟩ :=
        ensureSegments_spec env (splitSegs p) "" rootId st idr st'
          splitSegs_ne_empty h
      constructor
      · rw [hcr]
        refine List.Nodup.append hnd hbnd ?_
        intro q hq1 hq2
        exact hc q hq1 (hbq q hq2).2.1
      · intro q hq
        rw [hcr] at hq
        rcases List.mem_append.1 hq with hq1 | hq2
        · rw [hca]
          exact cacheLookup_append_ne_none (hc q hq1)
        · exact (hbq q hq2).2.2

theorem runEnsure_inv (env : MatEnv) (rootId : String) (paths : List String) :
    ∀ (st st' : MatState),
      st.creates.Nodup → (∀ q ∈ st.creates, cacheLookup st.cache q ≠ none) →
      runEnsure env rootId paths st = .ok st' →
      st'.creates.Nodup ∧ ∀ q ∈ st'.creates, cacheLookup st'.cache q ≠ none := by
  induction paths with
  | nil =>
    intro st st' hnd hc h
    simp only [runEnsure] at h
    obtain rfl : st = st' := by simpa using h
    exact ⟨hnd, hc⟩
  | cons p ps ih =>
    intro st st' hnd hc h
    simp only [runEnsure] at h
    cases hens : ensureFolderPathExists env rootId p st with
    | error e =>
      rw [hens] at h
      exact absurd h (by simp)
    | ok pr =>
      obtain ⟨id1, st1⟩ := pr
      rw [hens] at h
      obtain ⟨hnd1, hc1⟩ := ensure_preserves_inv env rootId p hens hnd hc
      exact ih st1 st' hnd1 hc1 h

end MatLemmas

/-- Claim C1 counterexample: the claim asserts that a path on both sides
whose two mtimes both exceed `watermark + 2000` is a conflict candidate
(oracle consulted, conflict raised when contents diverge).  In a run
with `toRemote = false`, `fromRemote = true`, watermark `1000`, policy
`keep-remote`, and a divergent-content oracle, the path `a.md` has both
mtimes `10000 > 3000`, yet the run performs no operation at all and
counts zero conflicts, because the whole conflict branch lives inside
`if (toDrive)` and the Drive loop `continue`s on both-changed paths. -/
theorem c1_counterexample :
    performSync ⟨false, true, 1000, .keepRemote⟩ effDivergent
        [⟨"a.md", 5, 10000⟩] [⟨"d1", "a.md", "a.md", 6, 10000⟩] =
      ⟨[], Counters.zero, none⟩ ∧
    effDivergent.identicalContent ⟨"a.md", 5, 10000⟩ ⟨"d1", "a.md", "a.md", 6, 10000⟩
      = false :=
  ⟨by decide, rfl⟩

/-- Claim C1 (amended): for a path present in both snapshots, with all
remote calls succeeding and snapshot paths unique:
(a) if both mtimes exceed `watermark + 2000` and the oracle judges the
contents identical, no operation touches the path and the conflict
counter contribution is zero;
(a') if both mtimes exceed `watermark + 2000` but `toRemote` is disabled,
no operation touches the path (the conflict branch is skipped — this is
the amendment);
(b) if only the local mtime exceeds `watermark + 2000` and `toRemote` is
enabled, the path is uploaded in place with the existing remote id;
(c) if only the remote mtime exceeds `watermark + 2000` and `fromRemote`
is enabled, the path is downloaded;
(d) if neither mtime exceeds `watermark + 2000`, no operation touches
the path. -/
theorem c1_in_both_classification (cfg : SyncConfig) (eff : Effects)
    (locals : List LocalFile) (drives : List DriveFile) (f : LocalFile) (d : DriveFile)
    (hok : eff.allOk)
    (hLnd : (locals.map LocalFile.path).Nodup)
    (hDnd : (drives.map DriveFile.path).Nodup)
    (hf : f ∈ locals) (hd : d ∈ drives) (hpd : d.path = f.path) :
    (cfg.lastSync + 2000 < f.mtime → cfg.lastSync + 2000 < d.mtime →
      eff.identicalContent f d = true →
      (∀ op ∈ (performSync cfg eff locals drives).ops, op.opPath ≠ f.path) ∧
        (vaultStep cfg eff (lookupDrive drives) f).cnt.conflicts = 0) ∧
    (cfg.lastSync + 2000 < f.mtime → cfg.lastSync + 2000 < d.mtime →
      cfg.toDrive = false →
      ∀ op ∈ (performSync cfg eff locals drives).ops, op.opPath ≠ f.path) ∧
    (cfg.toDrive = true → cfg.lastSync + 2000 < f.mtime →
      ¬cfg.lastSync + 2000 < d.mtime →
      SyncOp.uploadUpdate f.path d.id ∈ (performSync cfg eff locals drives).ops) ∧
    (cfg.fromDrive = true → ¬cfg.lastSync + 2000 < f.mtime →
      cfg.lastSync + 2000 < d.mtime →
      SyncOp.download d.path d.id ∈ (performSync cfg eff locals drives).ops) ∧
    (¬cfg.lastSync + 2000 < f.mtime → ¬cfg.lastSync + 2000 < d.mtime →
      ∀ op ∈ (performSync cfg eff locals drives).ops, op.opPath ≠ f.path) := by
  have hdm : lookupDrive drives f.path = some d :=
    mapLookup_of_mem_nodup hDnd hd hpd
  have hvm : lookupLocal locals d.path = some f :=
    mapLookup_of_mem_nodup hLnd hf hpd.symm
  refine ⟨?_, ?_, ?_, ?_, ?_⟩
  · intro hlc hrc hic
    constructor
    · refine run_no_op_for_both_path hLnd hDnd hf hd hpd ?_ ?_
      · rw [vaultStep_identical_skip' hdm hlc hrc hic]
      · rw [driveStep_both_changed_skip hvm hrc hlc]
    · rw [vaultStep_identical_skip' hdm hlc hrc hic]
      rfl
  · intro hlc hrc htd
    refine run_no_op_for_both_path hLnd hDnd hf hd hpd ?_ ?_
    · rw [vaultStep_not_toDrive htd]
    · rw [driveStep_both_changed_skip hvm hrc hlc]
  · intro htd hlc hrc
    refine performSync_mem_vault hok hf ?_
    rw [vaultStep_update_in_place htd hdm hlc hrc (hok.1 f.path)]
    exact List.mem_singleton.2 rfl
  · intro hfd hlc hrc
    refine performSync_mem_drive hok hfd hd ?_
    rw [driveStep_in_both_download hvm hrc hlc (hok.2.1 d.path)]
    exact List.mem_singleton.2 rfl
  · intro hlc hrc
    refine run_no_op_for_both_path hLnd hDnd hf hd hpd ?_ ?_
    · rw [vaultStep_skip_not_changed hdm hlc]
    · rw [driveStep_in_both_skip hvm hrc]

/-- Claim C1 witness: at a concrete input satisfying the hypotheses of
branch (b) — local mtime `9000` past the slack window, remote mtime
`2500` inside it, `toRemote` enabled — the update-in-place upload with
the existing remote id is issued. -/
theorem c1_witness :
    SyncOp.uploadUpdate "w.md" "d9" ∈
      (performSync ⟨true, false, 1000, .overwrite⟩ effDivergent
        [⟨"w.md", 5, 9000⟩] [⟨"d9", "w.md", "w.md", 5, 2500⟩]).ops :=
  (c1_in_both_classification ⟨true, false, 1000, .overwrite⟩ effDivergent
      [⟨"w.md", 5, 9000⟩] [⟨"d9", "w.md", "w.md", 5, 2500⟩]
      ⟨"w.md", 5, 9000⟩ ⟨"d9", "w.md", "w.md", 5, 2500⟩
      ⟨fun _ => rfl, fun _ => rfl, fun _ => rfl⟩
      (by decide) (by decide) (by decide) (by decide) rfl).2.2.1
    rfl (by decide) (by decide)

/-- Claim C2 counterexample: the claim asserts that a remote-only path
whose mtime does not exceed `watermark + 2000` gets a delete-remote
whenever `toRemote` is enabled.  In a run with `toRemote = true`,
`fromRemote = false`, watermark `10000`, and the stale remote-only file
`old.md` (mtime `1000`), no operation is issued at all: the whole
Drive-files loop is gated on `fromDrive`. -/
theorem c2_counterexample :
    performSync ⟨true, false, 10000, .overwrite⟩ effDivergent []
        [⟨"d2", "old.md", "old.md", 3, 1000⟩] =
      ⟨[], Counters.zero, none⟩ := by
  decide

/-- Claim C2 (amended): a remote-only path is processed only when
`fromRemote` is enabled; in that case it is downloaded when its mtime
exceeds `watermark + 2000`, deleted from Drive when it does not and
`toRemote` is enabled, and skipped when it does not and `toRemote` is
disabled.  When `fromRemote` is disabled, nothing is done for it. -/
theorem c2_remote_only_classification (cfg : SyncConfig) (eff : Effects)
    (locals : List LocalFile) (drives : List DriveFile) (d : DriveFile)
    (hok : eff.allOk) (hDnd : (drives.map DriveFile.path).Nodup)
    (hd : d ∈ drives) (hnl : lookupLocal locals d.path = none) :
    (cfg.fromDrive = true → cfg.lastSync + 2000 < d.mtime →
      SyncOp.download d.path d.id ∈ (performSync cfg eff locals drives).ops) ∧
    (cfg.fromDrive = true → ¬cfg.lastSync + 2000 < d.mtime → cfg.toDrive = true →
      SyncOp.deleteRemote d.path d.id ∈ (performSync cfg eff locals drives).ops) ∧
    (cfg.fromDrive = true → ¬cfg.lastSync + 2000 < d.mtime → cfg.toDrive = false →
      ∀ op ∈ (performSync cfg eff locals drives).ops, op.opPath ≠ d.path) ∧
    (cfg.fromDrive = false →
      ∀ op ∈ (performSync cfg eff locals drives).ops, op.opPath ≠ d.path) := by
  refine ⟨?_, ?_, ?_, ?_⟩
  · intro hfd hrc
    refine performSync_mem_drive hok hfd hd ?_
    rw [driveStep_remote_only_download hnl hfd hrc (hok.2.1 d.path)]
    exact List.mem_singleton.2 rfl
  · intro hfd hrc htd
    refine performSync_mem_drive hok hfd hd ?_
    rw [driveStep_remote_only_delete hnl htd hrc (hok.2.2 d.path)]
    exact List.mem_singleton.2 rfl
  · intro hfd hrc htd
    refine run_no_op_for_drive_only_path hDnd hd hnl ?_
    intro _
    rw [driveStep_remote_only_skip hnl htd hrc]
  · intro hfd
    refine run_no_op_for_drive_only_path hDnd hd hnl ?_
    intro hfd'
    rw [hfd] at hfd'
    cases hfd'

/-- Claim C2 witness: in a bidirectional run with watermark `10000`, the
stale remote-only file `old.md` (mtime `1000`, within the slack window)
is deleted from Drive. -/
theorem c2_witness :
    SyncOp.deleteRemote "old.md" "d2" ∈
      (performSync ⟨true, true, 10000, .overwrite⟩ effDivergent []
        [⟨"d2", "old.md", "old.md", 3, 1000⟩]).ops :=
  (c2_remote_only_classification ⟨true, true, 10000, .overwrite⟩ effDivergent []
      [⟨"d2", "old.md", "old.md", 3, 1000⟩] ⟨"d2", "old.md", "old.md", 3, 1000⟩
      ⟨fun _ => rfl, fun _ => rfl, fun _ => rfl⟩
      (by decide) (by decide) rfl).2.1
    rfl (by decide) rfl

/-- Claim C3 (confirmed): assuming the clock has not gone backwards since
the watermark was written (`lastSync ≤ now`), the persisted watermark is
monotonically non-decreasing: a run that finishes without a thrown error
sets it to the current time `now`, and a run that fails leaves it
unchanged. -/
theorem c3_watermark_monotonicity (cfg : SyncConfig) (eff : Effects)
    (locals : List LocalFile) (drives : List DriveFile) (now : Nat)
    (hclock : cfg.lastSync ≤ now) :
    cfg.lastSync ≤ lastSyncAfter cfg eff locals drives now ∧
      ((performSync cfg eff locals drives).err = none →
        lastSyncAfter cfg eff locals drives now = now) ∧
      (∀ e, (performSync cfg eff locals drives).err = some e →
        lastSyncAfter cfg eff locals drives now = cfg.lastSync) := by
  cases herr : (performSync cfg eff locals drives).err with
  | none =>
    refine ⟨?_, fun _ => ?_, fun e he => ?_⟩
    · simp only [lastSyncAfter, herr]
      exact hclock
    · simp only [lastSyncAfter, herr]
    · cases he
  | some e =>
    refine ⟨?_, fun hn => ?_, fun e' he => ?_⟩
    · simp only [lastSyncAfter, herr]
      exact le_refl _
    · cases hn
    · simp only [lastSyncAfter, herr]

/-- Claim C3 witness: a trivial successful run from watermark `0` with
current time `5` keeps the watermark non-decreasing. -/
theorem c3_witness :
    (0 : Nat) ≤ lastSyncAfter ⟨true, true, 0, .overwrite⟩ effDivergent [] [] 5 :=
  (c3_watermark_monotonicity ⟨true, true, 0, .overwrite⟩ effDivergent [] [] 5
    (by decide)).1

/-- Claim C6 counterexample: the claim asserts that a run with
`toRemote = true`, `fromRemote = false` never issues a download, for any
policy including `keep-remote`.  With policy `keep-remote` and a
both-changed divergent path, `handleConflict` downloads the Drive
version even though `fromRemote` is disabled. -/
theorem c6_counterexample :
    SyncOp.download "a.md" "d1" ∈
      (performSync ⟨true, false, 1000, .keepRemote⟩ effDivergent
        [⟨"a.md", 5, 10000⟩] [⟨"d1", "a.md", "a.md", 6, 10000⟩]).ops := by
  decide

/-- Claim C6 (amended): a run with `fromRemote` disabled can issue a
download only through conflict resolution under the `keep-remote`
policy; whenever the configured policy is not `keep-remote`, no download
call is issued during the run, for any snapshots and watermark. -/
theorem c6_one_way_no_download (cfg : SyncConfig) (eff : Effects)
    (locals : List LocalFile) (drives : List DriveFile)
    (hfd : cfg.fromDrive = false) (hpol : cfg.policy ≠ .keepRemote) :
    ∀ p i, SyncOp.download p i ∉ (performSync cfg eff locals drives).ops := by
  intro p i hop
  rcases performSync_ops_cases hop with ⟨f', hf', hopf⟩ | ⟨hfd', hrest⟩
  · exact hpol (vaultStep_download_policy hopf)
  · rw [hfd] at hfd'
    cases hfd'

/-- Claim C6 witness: with policy `overwrite` and `fromRemote` disabled,
a concrete run issues no download. -/
theorem c6_witness :
    SyncOp.download "a.md" "d1" ∉
      (performSync ⟨true, false, 1000, .overwrite⟩ effDivergent
        [⟨"a.md", 5, 10000⟩] [⟨"d1", "a.md", "a.md", 6, 10000⟩]).ops :=
  c6_one_way_no_download ⟨true, false, 1000, .overwrite⟩ effDivergent
    [⟨"a.md", 5, 10000⟩] [⟨"d1", "a.md", "a.md", 6, 10000⟩] rfl (by decide)
    "a.md" "d1"

/-- Claim C7 counterexample: the claim asserts that classification always
computes the full verdict, so that with `toRemote = false`,
`fromRemote = true` a both-changed path is still detected as a conflict
candidate and, being divergent, reaches the resolver (policy
`overwrite` would upload it in place).  At this concrete input the run
performs no operation and counts zero conflicts: the conflict branch is
gated on `toDrive` and the Drive loop skips both-changed paths. -/
theorem c7_counterexample :
    performSync ⟨false, true, 2000, .overwrite⟩ effDivergent
        [⟨"b.md", 7, 9000⟩] [⟨"e2", "b.md", "b.md", 8, 9500⟩] =
      ⟨[], Counters.zero, none⟩ := by
  decide

/-- Claim C7 (amended): direction gates classification itself, not only
the actions.  In a run with `toRemote = false` a both-changed path is
silently skipped — no operation touches it regardless of the oracle and
the policy — and the whole run counts zero conflicts. -/
theorem c7_direction_gates_classification (cfg : SyncConfig) (eff : Effects)
    (locals : List LocalFile) (drives : List DriveFile) (f : LocalFile) (d : DriveFile)
    (hLnd : (locals.map LocalFile.path).Nodup)
    (hDnd : (drives.map DriveFile.path).Nodup)
    (hf : f ∈ locals) (hd : d ∈ drives) (hpd : d.path = f.path)
    (htd : cfg.toDrive = false)
    (hlc : cfg.lastSync + 2000 < f.mtime) (hrc : cfg.lastSync + 2000 < d.mtime) :
    (∀ op ∈ (performSync cfg eff locals drives).ops, op.opPath ≠ f.path) ∧
      (performSync cfg eff locals drives).cnt.conflicts = 0 := by
  have hvm : lookupLocal locals d.path = some f :=
    mapLookup_of_mem_nodup hLnd hf hpd.symm
  constructor
  · refine run_no_op_for_both_path hLnd hDnd hf hd hpd ?_ ?_
    · rw [vaultStep_not_toDrive htd]
    · rw [driveStep_both_changed_skip hvm hrc hlc]
  · exact performSync_conflicts_not_toDrive htd

/-- Claim C7 witness: for a concrete both-changed path in a
`toRemote = false` run, the whole run counts zero conflicts. -/
theorem c7_witness :
    (performSync ⟨false, true, 2000, .keepLocal⟩ effDivergent
      [⟨"b.md", 7, 9000⟩] [⟨"e2", "b.md", "b.md", 8, 9500⟩]).cnt.conflicts = 0 :=
  (c7_direction_gates_classification ⟨false, true, 2000, .keepLocal⟩ effDivergent
    [⟨"b.md", 7, 9000⟩] [⟨"e2", "b.md", "b.md", 8, 9500⟩]
    ⟨"b.md", 7, 9000⟩ ⟨"e2", "b.md", "b.md", 8, 9500⟩
    (by decide) (by decide) (by decide) (by decide) rfl rfl
    (by decide) (by decide)).2

/-- Claim C8 counterexample: the claim asserts that any failing remote
operation of the mutation phase — including delete-remote — aborts the
rest of the run and keeps the watermark.  With a non-OK DELETE response
for the stale remote-only file `old.md`, the run still attempts the
delete, completes without error (the failure is only logged, `deleted`
stays `0`), and the watermark advances to `50000`. -/
theorem c8_counterexample :
    effDeleteFail.deleteOk "old.md" = false ∧
      performSync ⟨true, true, 10000, .overwrite⟩ effDeleteFail []
          [⟨"d2", "old.md", "old.md", 3, 1000⟩] =
        ⟨[SyncOp.deleteRemote "old.md" "d2"], Counters.zero, none⟩ ∧
      lastSyncAfter ⟨true, true, 10000, .overwrite⟩ effDeleteFail []
          [⟨"d2", "old.md", "old.md", 3, 1000⟩] 50000 = 50000 :=
  ⟨rfl, by decide, by decide⟩

/-- Claim C8 (amended): a failing upload or download is re-thrown and
aborts the remainder of the run — the rest of the file list is never
processed and the watermark stays unchanged — but a failing
delete-remote is only logged: the step reports no error, the run
continues, and the watermark still advances.  Conjuncts: (1) any run
that ends with an error leaves the watermark unchanged; (2) a step that
throws makes the loop's result independent of all later files; (3) a
failing upload of a new file throws; (4) a failing download of a
recently modified remote-only file throws; (5) a failing download of an
in-both path whose Drive side alone changed throws; (6) a failing
delete is attempted, counted as zero deletions, and reports no error. -/
theorem c8_error_propagation :
    (∀ (cfg : SyncConfig) (eff : Effects) (locals : List LocalFile)
        (drives : List DriveFile) (now : Nat) (e : SyncError),
      (performSync cfg eff locals drives).err = some e →
      lastSyncAfter cfg eff locals drives now = cfg.lastSync) ∧
    (∀ {α : Type} (step : α → SyncTrace) (x : α) (xs : List α) (e : SyncError),
      (step x).err = some e →
      foldSteps step (x :: xs) = ⟨(step x).ops, (step x).cnt, some e⟩) ∧
    (∀ (cfg : SyncConfig) (eff : Effects) (dm : String → Option DriveFile)
        (f : LocalFile),
      cfg.toDrive = true → dm f.path = none → eff.uploadOk f.path = false →
      vaultStep cfg eff dm f =
        ⟨[SyncOp.uploadNew f.path], Counters.zero, some .uploadFailed⟩) ∧
    (∀ (cfg : SyncConfig) (eff : Effects) (vm : String → Option LocalFile)
        (d : DriveFile),
      vm d.path = none → cfg.lastSync + 2000 < d.mtime → cfg.fromDrive = true →
      eff.downloadOk d.path = false →
      driveStep cfg eff vm d =
        ⟨[SyncOp.download d.path d.id], Counters.zero, some .downloadFailed⟩) ∧
    (∀ (cfg : SyncConfig) (eff : Effects) (vm : String → Option LocalFile)
        (d : DriveFile) (v : LocalFile),
      vm d.path = some v → cfg.lastSync + 2000 < d.mtime →
      ¬cfg.lastSync + 2000 < v.mtime → eff.downloadOk d.path = false →
      driveStep cfg eff vm d =
        ⟨[SyncOp.download d.path d.id], Counters.zero, some .downloadFailed⟩) ∧
    (∀ (cfg : SyncConfig) (eff : Effects) (vm : String → Option LocalFile)
        (d : DriveFile),
      vm d.path = none → ¬cfg.lastSync + 2000 < d.mtime → cfg.toDrive = true →
      eff.deleteOk d.path = false →
      driveStep cfg eff vm d =
        ⟨[SyncOp.deleteRemote d.path d.id], Counters.zero, none⟩) := by
  refine ⟨?_, ?_, ?_, ?_, ?_, ?_⟩
  · intro cfg eff locals drives now e herr
    simp only [lastSyncAfter, herr]
  · intro α step x xs e h
    exact foldSteps_cons_err step x xs e h
  · intro cfg eff dm f htd hdm hup
    simp [vaultStep, htd, hdm, hup]
  · intro cfg eff vm d hvm hrc hfd hdl
    simp [driveStep, hvm, hrc, hfd, hdl]
  · intro cfg eff vm d v hvm hrc hvc hdl
    simp [driveStep, hvm, hrc, hvc, hdl]
  · intro cfg eff vm d hvm hrc htd hdel
    exact driveStep_remote_only_delete_fail hvm htd hrc hdel

/-- Claim C8 witness: a failing upload of the new local file `a.md`
aborts a concrete run, and a failing download of the recently modified
remote-only file `new.md` aborts another; in both runs the watermark
stays at its old value `0` instead of advancing to `777`. -/
theorem c8_witness :
    lastSyncAfter ⟨true, true, 0, .overwrite⟩ effUploadFail
        [⟨"a.md", 1, 5000⟩] [] 777 = 0 ∧
      lastSyncAfter ⟨true, true, 0, .overwrite⟩ effDownloadFail []
        [⟨"d3", "new.md", "new.md", 4, 5000⟩] 777 = 0 :=
  ⟨c8_error_propagation.1 ⟨true, true, 0, .overwrite⟩ effUploadFail
      [⟨"a.md", 1, 5000⟩] [] 777 .uploadFailed (by decide),
    c8_error_propagation.1 ⟨true, true, 0, .overwrite⟩ effDownloadFail []
      [⟨"d3", "new.md", "new.md", 4, 5000⟩] 777 .downloadFailed (by decide)⟩

/-- Claim C10 (confirmed): on a first run — persisted watermark still at
its `DEFAULT_SETTINGS.lastSyncTime = 0` default — a bidirectional run
downloads every remote-only file whose mtime exceeds `2000` ms after the
epoch and never issues a delete-remote for it: a fresh install only adds
files locally. -/
theorem c10_first_run_never_deletes (cfg : SyncConfig) (eff : Effects)
    (locals : List LocalFile) (drives : List DriveFile) (d : DriveFile)
    (hok : eff.allOk) (hDnd : (drives.map DriveFile.path).Nodup)
    (hd : d ∈ drives) (hnl : lookupLocal locals d.path = none)
    (htd : cfg.toDrive = true) (hfd : cfg.fromDrive = true)
    (hw : cfg.lastSync = DEFAULT_SETTINGS.lastSyncTime) (hm : 2000 < d.mtime) :
    SyncOp.download d.path d.id ∈ (performSync cfg eff locals drives).ops ∧
      ∀ i, SyncOp.deleteRemote d.path i ∉ (performSync cfg eff locals drives).ops := by
  have hw0 : cfg.lastSync = 0 := hw
  have hrc : cfg.lastSync + 2000 < d.mtime := by
    rw [hw0]
    simpa using hm
  constructor
  · refine performSync_mem_drive hok hfd hd ?_
    rw [driveStep_remote_only_download hnl hfd hrc (hok.2.1 d.path)]
    exact List.mem_singleton.2 rfl
  · intro i hop
    rcases performSync_ops_cases hop with ⟨f', hf', hopf⟩ | ⟨_, d', hd', hopd⟩
    · exact absurd hopf vaultStep_no_delete
    · have hdp' : d'.path = d.path := (driveStep_opPath hopd).symm
      have h1 : lookupDrive drives d.path = some d' :=
        mapLookup_of_mem_nodup hDnd hd' hdp'
      have h2 : lookupDrive drives d.path = some d :=
        mapLookup_of_mem_nodup hDnd hd rfl
      rw [h1] at h2
      cases h2
      rw [driveStep_remote_only_download hnl hfd hrc (hok.2.1 d.path)] at hopd
      simp at hopd

/-- Claim C10 witness: a concrete first run (watermark `0`) downloads the
remote-only file `new.md` (mtime `5000 > 2000`). -/
theorem c10_witness :
    SyncOp.download "new.md" "d3" ∈
      (performSync ⟨true, true, 0, .overwrite⟩ effDivergent []
        [⟨"d3", "new.md", "new.md", 4, 5000⟩]).ops :=
  (c10_first_run_never_deletes ⟨true, true, 0, .overwrite⟩ effDivergent []
      [⟨"d3", "new.md", "new.md", 4, 5000⟩] ⟨"d3", "new.md", "new.md", 4, 5000⟩
      ⟨fun _ => rfl, fun _ => rfl, fun _ => rfl⟩
      (by decide) (by decide) rfl rfl rfl rfl (by decide)).1

/-- Claim C4 (confirmed): `filesHaveIdenticalContent` follows the
ordered, short-circuiting policy: different sizes → not identical;
size zero (hence both zero) → identical; binary MIME type → identical
on size equality alone, contents never read; otherwise both contents
are read and the verdict is exactly equality of their MD5 digests; and
a failed read or download (`none`) yields not identical. -/
theorem c4_content_oracle (md5 : String → String) (vaultName : String)
    (vaultSize driveSize : Nat) (vaultRead driveDownload : Option String) :
    (vaultSize ≠ driveSize →
      filesHaveIdenticalContent md5 vaultName vaultSize driveSize
        vaultRead driveDownload = false) ∧
    (vaultSize = driveSize → vaultSize = 0 →
      filesHaveIdenticalContent md5 vaultName vaultSize driveSize
        vaultRead driveDownload = true) ∧
    (vaultSize = driveSize → vaultSize ≠ 0 →
      isBinaryFile (getMimeType vaultName) = true →
      filesHaveIdenticalContent md5 vaultName vaultSize driveSize
        vaultRead driveDownload = true) ∧
    (∀ vc dc, vaultSize = driveSize → vaultSize ≠ 0 →
      isBinaryFile (getMimeType vaultName) = false →
      vaultRead = some vc → driveDownload = some dc →
      (filesHaveIdenticalContent md5 vaultName vaultSize driveSize
          vaultRead driveDownload = true ↔ md5 vc = md5 dc)) ∧
    (vaultSize = driveSize → vaultSize ≠ 0 →
      isBinaryFile (getMimeType vaultName) = false →
      vaultRead = none ∨ driveDownload = none →
      filesHaveIdenticalContent md5 vaultName vaultSize driveSize
        vaultRead driveDownload = false) := by
  refine ⟨?_, ?_, ?_, ?_, ?_⟩
  · intro hne
    simp [filesHaveIdenticalContent, hne]
  · intro heq hz
    subst heq
    simp [filesHaveIdenticalContent, hz]
  · intro heq hz hbin
    subst heq
    simp [filesHaveIdenticalContent, hz, hbin]
  · intro vc dc heq hz hbin hvr hdd
    subst heq
    subst hvr
    subst hdd
    simp [filesHaveIdenticalContent, hz, hbin]
  · intro heq hz hbin hfail
    subst heq
    rcases hfail with hvr | hdd
    · subst hvr
      simp [filesHaveIdenticalContent, hz, hbin]
    · subst hdd
      cases vaultRead with
      | none => simp [filesHaveIdenticalContent, hz, hbin]
      | some vc => simp [filesHaveIdenticalContent, hz, hbin]

/-- Claim C4 witness: for the text file `a.md` with equal non-zero sizes
and both reads succeeding with the same content, the oracle (with the
identity digest) reports identical. -/
theorem c4_witness :
    filesHaveIdenticalContent (fun s => s) "a.md" 1 1 (some "x") (some "x")
      = true :=
  ((c4_content_oracle (fun s => s) "a.md" 1 1 (some "x") (some "x")).2.2.2.1
    "x" "x" rfl (by decide) (by decide) rfl rfl).mpr rfl

/-- Claim C5 (confirmed): the Folder Path Materializer is idempotent and
memoized per run: (1) a second call on the same (normal-form) relative
path returns the same remote folder id without changing the run state;
(2) the empty path resolves to the configured sync-root id; (3) over an
entire run — any sequence of calls threading the state from the cleared
cache — the recorded folder-creation calls are pairwise distinct
cumulative sub-paths: at most one create call per missing segment. -/
theorem c5_materializer_memoization :
    (∀ (env : MatEnv) (rootId p : String) (st : MatState)
        (idr : String) (st' : MatState),
      joinSegs (splitSegs p) = p ∨ p = "." →
      ensureFolderPathExists env rootId p st = .ok (idr, st') →
      ensureFolderPathExists env rootId p st' = .ok (idr, st')) ∧
    (∀ (env : MatEnv) (rootId : String) (st : MatState),
      cacheLookup st.cache "" = none →
      ensureFolderPathExists env rootId "" st = .ok (rootId, st)) ∧
    (∀ (env : MatEnv) (rootId : String) (paths : List String)
        (folders : List RemoteFolder) (n : Nat) (st' : MatState),
      runEnsure env rootId paths ⟨[], folders, n, []⟩ = .ok st' →
      st'.creates.Nodup) := by
  refine ⟨ensure_idempotent_aux, ?_, ?_⟩
  · intro env rootId st h
    unfold ensureFolderPathExists
    rw [h]
    rfl
  · intro env rootId paths folders n st' h
    exact (runEnsure_inv env rootId paths ⟨[], folders, n, []⟩ st'
      (by simp) (by simp) h).1

/-- Claim C5 witness: a run that materializes `a` twice from a fresh
state issues exactly one creation call (`creates = ["a"]`, duplicate
free), the second call is answered from the cache unchanged, and the
empty path resolves to the root id. -/
theorem c5_witness :
    ensureFolderPathExists ⟨true, true⟩ "root" "a"
        ⟨[("a", "folder_0")], [⟨"folder_0", "a", "root"⟩], 1, ["a"]⟩ =
      .ok ("folder_0",
        ⟨[("a", "folder_0")], [⟨"folder_0", "a", "root"⟩], 1, ["a"]⟩) ∧
    ensureFolderPathExists ⟨true, true⟩ "root" "" ⟨[], [], 0, []⟩ =
      .ok ("root", ⟨[], [], 0, []⟩) ∧
    (⟨[("a", "folder_0")], [⟨"folder_0", "a", "root"⟩], 1, ["a"]⟩
      : MatState).creates.Nodup :=
  ⟨c5_materializer_memoization.1 ⟨true, true⟩ "root" "a" ⟨[], [], 0, []⟩
      "folder_0" ⟨[("a", "folder_0")], [⟨"folder_0", "a", "root"⟩], 1, ["a"]⟩
      (Or.inl (by decide)) (by decide),
    c5_materializer_memoization.2.1 ⟨true, true⟩ "root" ⟨[], [], 0, []⟩ rfl,
    c5_materializer_memoization.2.2 ⟨true, true⟩ "root" ["a", "a"] [] 0
      ⟨[("a", "folder_0")], [⟨"folder_0", "a", "root"⟩], 1, ["a"]⟩ (by decide)⟩

end GDriveSync
